import Mathlib

/-!
Verification of the univariate drift detection methods of
`src/nannyml/drift/univariate/methods.py`, together with the helpers it
imports from `src/nannyml/base.py`.

Modelling conventions (shallow embedding):

* A pandas column of floats is a `List (Option ℚ)`; a `none` entry is a
  missing value (NaN / null).  Exact rationals stand in for Python floats,
  so every statement below is about the algorithms in exact arithmetic.
* The field operations of `ℚ` are `@[irreducible]` in this toolchain, so
  concrete runs of the models could not be checked by kernel reduction
  with them.  The definitions therefore use the wrappers
  `qadd`/`qsub`/`qmul`/`qdiv`/`qsum` built on `Rat.divInt`, which reduce;
  the lemmas `qadd_eq`, `qsub_eq`, `qmul_eq`, `qdiv_eq`, `qsum_eq` prove
  them equal to `+`, `-`, `*`, `/` and `List.sum`, so each definition still
  reads as the source formula.  `0.1` is `mkRat 1 10`.
* `_remove_missing_data` (base.py line 538) is `removeMissingData`.
* numpy histogram semantics: given edges `e0 ≤ e1 ≤ ... ≤ ek`, bin `i`
  is the half-open interval `[e i, e (i+1))` except the last bin which is
  closed.  NaN values satisfy no comparison, hence fall into no bin; the
  models below therefore count over the non-missing values while keeping
  whatever denominator the Python code uses (`len(data)` of the raw column
  versus the stripped column -- the distinction several claims are about).
* Exceptions become an `Err` value inside `Except`:
  `NotFittedException` is `Err.notFitted`, a Python `AttributeError`
  (reading an instance attribute that was only annotated, never assigned)
  is `Err.attributeError`, a numpy/scipy `ValueError` (reduction over an
  empty array, empty sample passed to a scipy routine, degenerate
  contingency table) is `Err.valueError`, and a Python scalar
  `ZeroDivisionError` is `Err.zeroDivision`.
* scipy calls that merely post-process the probability vectors the claims
  are about (`scipy.spatial.distance.jensenshannon`, the Hellinger square
  root formula) are not numeric in ℚ; the corresponding `_calculate`
  models return the pair (reference probability vector, data probability
  vector) that the source feeds into that final formula.
-/

/-- Kernel-reducible rational addition (equal to `+`, see `qadd_eq`). -/
def qadd (a b : ℚ) : ℚ :=
  Rat.divInt (a.num * b.den + b.num * a.den) (a.den * b.den)

/-- Kernel-reducible rational subtraction (equal to `-`, see `qsub_eq`). -/
def qsub (a b : ℚ) : ℚ :=
  qadd a (-b)

/-- Kernel-reducible rational multiplication (equal to `*`, see `qmul_eq`). -/
def qmul (a b : ℚ) : ℚ :=
  Rat.divInt (a.num * b.num) (a.den * b.den)

/-- Kernel-reducible rational division (equal to `/`, with the same junk
value 0 for a zero divisor; see `qdiv_eq`). -/
def qdiv (a b : ℚ) : ℚ :=
  Rat.divInt (a.num * b.den) (a.den * b.num)

/-- Kernel-reducible list sum (equal to `List.sum`, see `qsum_eq`). -/
def qsum (l : List ℚ) : ℚ :=
  l.foldr qadd 0

/-- The error kinds raised by the modelled code paths. -/
inductive Err where
  | notFitted
  | attributeError
  | valueError
  | zeroDivision
  deriving DecidableEq, Repr

/-- A pandas column: a list of values where `none` is a missing entry. -/
abbrev Col := List (Option ℚ)

/-- `_remove_missing_data` (base.py lines 538-543): drop the nulls, keep order. -/
def removeMissingData (c : Col) : List ℚ :=
  c.filterMap id

/-- `np.min` over a nonempty list (junk value 0 on `[]`; every use on `[]`
is modelled as the `ValueError` numpy raises, at the call site). -/
def listMin : List ℚ → ℚ
  | [] => 0
  | x :: xs => xs.foldl min x

/-- `np.max` over a nonempty list (junk value 0 on `[]`). -/
def listMax : List ℚ → ℚ
  | [] => 0
  | x :: xs => xs.foldl max x

/-- Insert into a sorted list (helper for the sort used by `np.unique`). -/
def sortedInsert (x : ℚ) : List ℚ → List ℚ
  | [] => [x]
  | y :: ys => if x ≤ y then x :: y :: ys else y :: sortedInsert x ys

/-- Insertion sort; `np.unique` returns its distinct values sorted. -/
def sortRat : List ℚ → List ℚ
  | [] => []
  | x :: xs => sortedInsert x (sortRat xs)

/-- The distinct values of a list, sorted ascending (`np.unique` on clean data). -/
def uniqueSorted (vals : List ℚ) : List ℚ :=
  sortRat vals.dedup

/-- Number of distinct values `len(np.unique(column))` of a raw column.
numpy compares NaN unequal to everything including itself, so every
missing entry contributes one further distinct value. -/
def nUniqueCol (c : Col) : ℕ :=
  (removeMissingData c).dedup.length + c.count none

/-- Membership of `x` in histogram bin `i` of `edges`: numpy bins are
half-open `[e i, e (i+1))`, the last bin is closed. -/
def inBin (edges : List ℚ) (i : ℕ) (x : ℚ) : Bool :=
  let lo := edges.getD i 0
  let hi := edges.getD (i + 1) 0
  if i + 2 = edges.length then decide (lo ≤ x) && decide (x ≤ hi)
  else decide (lo ≤ x) && decide (x < hi)

/-- `np.histogram(values, bins=edges)[0]`: the per-bin counts
(`edges.length - 1` bins). -/
def histCounts (edges : List ℚ) (vals : List ℚ) : List ℕ :=
  (List.range (edges.length - 1)).map (fun i => (vals.filter (inBin edges i)).length)

/-- `np.linspace a b m`: `m` evenly spaced points from `a` to `b` inclusive,
the i-th point being `a + (b - a) * i / (m - 1)`. -/
def linspace (a b : ℚ) (m : ℕ) : List ℚ :=
  (List.range m).map (fun i : ℕ => qadd a (qdiv (qmul (qsub b a) (i : ℚ)) ((m : ℚ) - 1)))

/-- `np.histogram_bin_edges(values, bins='doane')` produces `k + 1` evenly
spaced edges spanning `[min values, max values]`.  The Doane formula that
picks `k` (a floating-point expression of log2 and sample skewness) is
abstracted into the explicit parameter `k`; no claim depends on the count. -/
def binEdges (k : ℕ) (vals : List ℚ) : List ℚ :=
  linspace (listMin vals) (listMax vals) (k + 1)

/-- `np.cumsum`. -/
def cumsum (l : List ℚ) : List ℚ :=
  (List.range l.length).map (fun i => qsum (l.take (i + 1)))

/-! ## Jensen-Shannon distance and Hellinger distance
(`JensenShannonDistance`, methods.py lines 251-327, and
`HellingerDistance`, lines 632-708; the two `_fit`/`_calculate` bodies are
identical except that Hellinger first strips missing data,
lines 660 and 687). -/

/-- The fitted state shared by `JensenShannonDistance` and
`HellingerDistance`: `_treat_as_type`, `_bins`, `_reference_proba_in_bins`. -/
structure BinnedState where
  treatAsType : String
  bins : List ℚ
  referenceProbaInBins : List ℚ
  deriving DecidableEq, Repr

/-- The continuous/categorical treatment rule of
`JensenShannonDistance._fit` lines 281-289 (and `HellingerDistance._fit`
lines 661-669): categorical dtype is treated as categorical; otherwise the
column is treated as continuous when
`n_unique_values > 50 or n_unique_values / len_reference > 0.1`.
The native dtype test `_column_is_categorical` is the boolean `isCat`. -/
def treatAsTypeOf (isCat : Bool) (c : Col) : String :=
  if isCat then "cat"
  else if 50 < nUniqueCol c ∨ mkRat 1 10 < qdiv (nUniqueCol c : ℚ) (c.length : ℚ) then "cont"
  else "cat"

/-- The shared `_fit` body (methods.py lines 280-304 and 659-684), acting on
the raw column it is handed.  In the continuous branch the counts are divided
by `len_reference = len(reference_data)` (line 285) and in the categorical
branch by `len(reference_data)` (line 298) -- the length of the column as
received, including any missing entries.  numpy would also emit one
pseudo-label per NaN from `np.unique` (each NaN distinct); those labels can
never be matched by the dictionary lookup of `_calculate` line 315, so the
model stores only the real labels while keeping the raw-length denominator. -/
def binnedFit (k : ℕ) (isCat : Bool) (ref : Col) : BinnedState :=
  let t := treatAsTypeOf isCat ref
  let vals := removeMissingData ref
  if t = "cont" then
    let bins := binEdges k vals
    { treatAsType := t, bins := bins,
      referenceProbaInBins := (histCounts bins vals).map
        (fun c => qdiv (c : ℚ) (ref.length : ℚ)) }
  else
    let labels := uniqueSorted vals
    { treatAsType := t, bins := labels,
      referenceProbaInBins := labels.map
        (fun l => qdiv (vals.count l : ℚ) (ref.length : ℚ)) }

/-- `JensenShannonDistance._fit` (lines 280-304): no missing-data removal,
the raw reference column is used throughout. -/
def jensenShannonFit (k : ℕ) (isCat : Bool) (ref : Col) : BinnedState :=
  binnedFit k isCat ref

/-- `HellingerDistance._fit` (lines 659-684): line 660 strips missing data
first, then the body is identical to the Jensen-Shannon `_fit`. -/
def hellingerFit (k : ℕ) (isCat : Bool) (ref : Col) : BinnedState :=
  binnedFit k isCat ((removeMissingData ref).map some)

/-- The data probability vector of the shared `_calculate` body
(lines 308-316 and 689-697): continuous treatment puts the histogram counts
of the stored bin edges over the denominator `n`; categorical treatment
counts each stored label (the dictionary built from `np.unique` of the data,
looked up per stored label, lines 313-316) over the denominator `n`.
The caller chooses `n`: `len(data)` of the raw column for Jensen-Shannon,
of the stripped column for Hellinger. -/
def dataProbaInBins (st : BinnedState) (n : ℕ) (vals : List ℚ) : List ℚ :=
  if st.treatAsType = "cont" then
    (histCounts st.bins vals).map (fun c => qdiv (c : ℚ) (n : ℚ))
  else
    st.bins.map (fun key => qdiv (vals.count key : ℚ) (n : ℚ))

/-- Lines 318-321 (and 699-702): the leftover mass
`1 - sum(data_proba_in_bins)`; when positive it is appended to the data
vector and a 0 is appended to the reference vector. -/
def appendLeftover (refProba dataProba : List ℚ) : List ℚ × List ℚ :=
  let leftover := qsub 1 (qsum dataProba)
  if 0 < leftover then (refProba ++ [(0 : ℚ)], dataProba ++ [leftover])
  else (refProba, dataProba)

/-- `JensenShannonDistance._calculate` (lines 306-327).  The unfitted
instance has its attributes only annotated (lines 276-278), so the read on
line 307 raises `AttributeError`; the model represents the attributes by
an `Option BinnedState` that is `none` before `fit`.  There is no
missing-data removal: denominators use the raw length `data.length` while
only non-missing values fall into bins.  The final
`scipy jensenshannon(reference_proba_in_bins, data_proba_in_bins, base=2)`
(line 323) is a real-valued function of the returned pair. -/
def jensenShannonCalculate (s : Option BinnedState) (data : Col) :
    Except Err (List ℚ × List ℚ) :=
  match s with
  | none => .error .attributeError
  | some st =>
      .ok (appendLeftover st.referenceProbaInBins
            (dataProbaInBins st data.length (removeMissingData data)))

/-- `HellingerDistance._calculate` (lines 686-708): line 687 strips missing
data first, after which the body is the Jensen-Shannon one with the stripped
column (so denominators use the stripped length).  The final Hellinger
formula `sqrt(sum((sqrt p - sqrt q)^2))/sqrt 2` (line 704) is a real-valued
function of the returned pair. -/
def hellingerCalculate (s : Option BinnedState) (data : Col) :
    Except Err (List ℚ × List ℚ) :=
  match s with
  | none => .error .attributeError
  | some st =>
      let vals := removeMissingData data
      .ok (appendLeftover st.referenceProbaInBins
            (dataProbaInBins st vals.length vals))

/-- The unfitted `JensenShannonDistance` (its `__init__` lines 259-278 only
annotates `_treat_as_type`, `_bins`, `_reference_proba_in_bins`). -/
def jensenShannonInit : Option BinnedState := none

/-- The unfitted `HellingerDistance` (its `__init__` lines 637-657 only
annotates the same three attributes). -/
def hellingerInit : Option BinnedState := none

/-! ## Kolmogorov-Smirnov statistic
(`KolmogorovSmirnovStatistic`, methods.py lines 330-406). -/

/-- The empirical CDF of a sample evaluated at `t`:
`#{x in xs | x ≤ t} / #xs`. -/
def ecdfAt (xs : List ℚ) (t : ℚ) : ℚ :=
  qdiv ((xs.filter (fun x => decide (x ≤ t))).length : ℚ) (xs.length : ℚ)

/-- Modelled from the documented behaviour of `scipy.stats.ks_2samp`
(called on line 404): the classic two-sample Kolmogorov-Smirnov statistic,
the maximum absolute difference between the two empirical CDFs.  Both step
functions are constant between consecutive sample points, so the supremum
over all evaluation points is attained on the merged sample
(`ecdfAt_diff_le_ks2samp` below proves this for the model). -/
def ks2samp (xs ys : List ℚ) : ℚ :=
  ((xs ++ ys).map (fun t => |qsub (ecdfAt xs t) (ecdfAt ys t)|)).foldr max 0

/-- Instance state of `KolmogorovSmirnovStatistic` (its `__init__`
lines 337-371): `_reference_data`, `_reference_size`, `_qts`,
`_ref_rel_freqs`, `_fitted`, `calculation_method`, `n_bins`.
`_qts` is only annotated, never assigned before the estimated fit, so it is
an `Option`; `_reference_size` is likewise unassigned before `fit` and the
default 0 is never read before `fit` because `_calculate` checks `_fitted`
first. -/
structure KSInner where
  referenceData : Option (List ℚ)
  referenceSize : ℕ
  qts : Option (List ℚ)
  refRelFreqs : Option (List ℚ)
  fitted : Bool
  calculationMethod : String
  nBins : ℕ
  deriving DecidableEq, Repr

/-- A fresh `KolmogorovSmirnovStatistic` with the given computation
parameters (the default construction path sets `calculation_method='auto'`
and `n_bins=10_000`, lines 362-371). -/
def ksInit (method : String) (nBins : ℕ) : KSInner :=
  { referenceData := none, referenceSize := 0, qts := none, refRelFreqs := none,
    fitted := false, calculationMethod := method, nBins := nBins }

/-- `KolmogorovSmirnovStatistic._fit` (lines 373-386): strip missing data;
store the raw sample when `(auto and len < 10_000) or exact`; otherwise bin
`linspace(min, max, n_bins + 1)` (`np.min`/`np.max` raise `ValueError` on an
empty stripped sample) and store the cumulative relative frequencies. -/
def ksFit (ref : Col) (s : KSInner) : Except Err KSInner :=
  let vals := removeMissingData ref
  if (s.calculationMethod = "auto" ∧ vals.length < 10000) ∨ s.calculationMethod = "exact" then
    .ok { s with referenceData := some vals, referenceSize := vals.length, fitted := true }
  else
    if vals.length = 0 then .error .valueError
    else
      let qr := linspace (listMin vals) (listMax vals) (s.nBins + 1)
      let freqs := cumsum ((histCounts qr vals).map (fun c => qdiv (c : ℚ) (vals.length : ℚ)))
      .ok { s with qts := some qr, refRelFreqs := some freqs,
                   referenceSize := vals.length, fitted := true }

/-- `KolmogorovSmirnovStatistic._calculate` (lines 388-406): strip missing
data (line 389, before the fitted check), raise `NotFittedException` when
unfitted (lines 390-393).  Estimated branch (lines 394-402): the scalar
Python division `len(data[data < qts[0]]) / len(data)` on line 400 raises
`ZeroDivisionError` on an empty stripped column; otherwise the statistic is
the maximum absolute difference between the stored reference cumulative
frequencies and the cumulative data frequencies shifted by the mass below
the lowest edge.  Exact branch (line 404): `ks_2samp` on the stored raw
sample, which raises `ValueError` on an empty sample. -/
def ksCalculate (s : KSInner) (data : Col) : Except Err (ℚ × KSInner) :=
  let vals := removeMissingData data
  if ¬ s.fitted then .error .notFitted
  else if (s.calculationMethod = "auto" ∧ 10000 ≤ s.referenceSize) ∨
      s.calculationMethod = "estimated" then
    match s.qts, s.refRelFreqs with
    | some qts, some rf =>
        if vals.length = 0 then .error .zeroDivision
        else
          let rel := (histCounts qts vals).map (fun c => qdiv (c : ℚ) (vals.length : ℚ))
          let below := qdiv ((vals.filter (fun x => decide (x < qts.headD 0))).length : ℚ)
            (vals.length : ℚ)
          let cum := (cumsum rel).map (fun r => qadd below r)
          let stat := ((rf.zipWith (fun a b => |qsub a b|) cum).foldr max 0)
          .ok (stat, s)
    | _, _ => .error .attributeError
  else
    match s.referenceData with
    | some refv =>
        if refv.length = 0 ∨ vals.length = 0 then .error .valueError
        else .ok (ks2samp refv vals, s)
    | none => .error .valueError

/-! ## Chi2 statistic (`Chi2Statistic`, methods.py lines 409-470). -/

/-- `pandas value_counts` of a clean sample, zero counts dropped
(a count of a present label is never zero, so the `loc[lambda v: v != 0]`
filter of lines 442 and 463 drops nothing here); the label order (pandas
sorts by frequency) does not matter to any claim, first-occurrence order is
used. -/
def valueCounts (vals : List ℚ) : List (ℚ × ℕ) :=
  vals.dedup.map (fun l => (l, vals.count l))

/-- Instance state of `Chi2Statistic` (its `__init__` lines 416-438):
`_reference_data_vcs` and `_p_value` are only annotated (hence `Option`),
`_fitted` starts `False`. -/
structure Chi2Inner where
  referenceDataVcs : Option (List (ℚ × ℕ))
  pValue : Option ℚ
  fitted : Bool
  deriving DecidableEq, Repr

/-- A fresh `Chi2Statistic`. -/
def chi2Init : Chi2Inner :=
  { referenceDataVcs := none, pValue := none, fitted := false }

/-- `Chi2Statistic._fit` (lines 440-444): strip missing data, store the
value counts, set `_fitted`. -/
def chi2Fit (ref : Col) (s : Chi2Inner) : Chi2Inner :=
  { s with referenceDataVcs := some (valueCounts (removeMissingData ref)), fitted := true }

/-- `Chi2Statistic._calculate` (lines 446-454 with `_calc_chi2`
lines 462-470): strip missing data (line 447, before the fitted check),
raise `NotFittedException` when unfitted; otherwise run
`scipy.stats.chi2_contingency` on the outer-joined, zero-filled contingency
table of reference and data value counts, store the p-value, return the
statistic.  The scipy call (statistic and p-value, which may also raise on
a degenerate table) is the parameter `chi2fn`; the claims below hold for
every such function. -/
def chi2Calculate (chi2fn : List (ℚ × ℕ) → List (ℚ × ℕ) → Except Err (ℚ × ℚ))
    (s : Chi2Inner) (data : Col) : Except Err (ℚ × Chi2Inner) :=
  let vals := removeMissingData data
  if ¬ s.fitted then .error .notFitted
  else
    match s.referenceDataVcs with
    | none => .error .attributeError
    | some rvcs =>
        match chi2fn rvcs (valueCounts vals) with
        | .error e => .error e
        | .ok (stat, p) => .ok (stat, { s with pValue := some p })

/-! ## L-infinity distance (`LInfinityDistance`, methods.py lines 473-522). -/

/-- Instance state of `LInfinityDistance` (its `__init__` lines 480-498):
`_reference_proba` starts as `None` and becomes a label-to-probability
mapping after `fit`. -/
structure LInfInner where
  referenceProba : Option (List (ℚ × ℚ))
  deriving DecidableEq, Repr

/-- A fresh `LInfinityDistance`. -/
def lInfInit : LInfInner := { referenceProba := none }

/-- The per-label occurrence probabilities
`{label: (column == label).sum() / len(column) for label in column.unique()}`
(lines 503 and 514). -/
def labelRatios (vals : List ℚ) : List (ℚ × ℚ) :=
  vals.dedup.map (fun l => (l, qdiv (vals.count l : ℚ) (vals.length : ℚ)))

/-- `dict.get(label, 0)` on an association list. -/
def lookupRatio (m : List (ℚ × ℚ)) (l : ℚ) : ℚ :=
  ((m.find? (fun p => p.1 = l)).map Prod.snd).getD 0

/-- `LInfinityDistance._fit` (lines 500-505): strip missing data, store the
reference label probabilities. -/
def lInfFit (ref : Col) (s : LInfInner) : LInfInner :=
  { s with referenceProba := some (labelRatios (removeMissingData ref)) }

/-- `LInfinityDistance._calculate` (lines 507-522): `NotFittedException`
when `_reference_proba is None` (the check precedes the stripping); then
strip missing data, compute the data label probabilities, and take the
maximum absolute per-label difference over the union of the label sets
(`max` over an empty dict raises `ValueError`, only possible when both
label sets are empty). -/
def lInfCalculate (s : LInfInner) (data : Col) : Except Err (ℚ × LInfInner) :=
  match s.referenceProba with
  | none => .error .notFitted
  | some rp =>
      let vals := removeMissingData data
      let dr := labelRatios vals
      let unionLabels := (rp.map Prod.fst) ++
        ((dr.map Prod.fst).filter (fun l => ¬ l ∈ rp.map Prod.fst))
      match unionLabels.map (fun l => |qsub (lookupRatio rp l) (lookupRatio dr l)|) with
      | [] => .error .valueError
      | d :: ds => .ok (ds.foldl max d, s)

/-! ## Wasserstein distance (`WassersteinDistance`, methods.py
lines 525-629). -/

/-- Instance state of `WassersteinDistance` (its `__init__` lines 532-565):
`_reference_data` starts `None`; `_bin_width`, `_bin_edges` and
`_ref_rel_freqs` are only annotated before the estimated fit;
`_fitted` starts `False`. -/
structure WassInner where
  referenceData : Option (List ℚ)
  referenceSize : ℕ
  binWidth : Option ℚ
  binEdges : Option (List ℚ)
  refRelFreqs : Option (List ℚ)
  fitted : Bool
  calculationMethod : String
  nBins : ℕ
  deriving DecidableEq, Repr

/-- A fresh `WassersteinDistance` (default construction path:
`calculation_method='auto'`, `n_bins=10_000`). -/
def wassInit (method : String) (nBins : ℕ) : WassInner :=
  { referenceData := none, referenceSize := 0, binWidth := none, binEdges := none,
    refRelFreqs := none, fitted := false, calculationMethod := method, nBins := nBins }

/-- `WassersteinDistance._fit` (lines 567-579): strip missing data; store
the raw sample when `(auto and len < 10_000) or exact`; otherwise
`np.histogram(vals, bins=n_bins)` with equal-width bins spanning
`[min, max]` (raising `ValueError` on an empty sample), storing the
relative frequencies, the edges, and the width `edges[1] - edges[0]`. -/
def wassFit (ref : Col) (s : WassInner) : Except Err WassInner :=
  let vals := removeMissingData ref
  if (s.calculationMethod = "auto" ∧ vals.length < 10000) ∨ s.calculationMethod = "exact" then
    .ok { s with referenceData := some vals, referenceSize := vals.length, fitted := true }
  else
    if vals.length = 0 then .error .valueError
    else
      let edges := linspace (listMin vals) (listMax vals) (s.nBins + 1)
      let freqs := (histCounts edges vals).map (fun c => qdiv (c : ℚ) (vals.length : ℚ))
      .ok { s with binEdges := some edges, refRelFreqs := some freqs,
                   binWidth := some (qsub (edges.getD 1 0) (edges.getD 0 0)),
                   referenceSize := vals.length, fitted := true }

/-- The number of elements `np.arange start stop step` produces for a
positive step: `max 0 ⌈(stop - start) / step⌉`. -/
def arangeLen (start stop step : ℚ) : ℕ :=
  if stop ≤ start then 0 else (Int.ceil (qdiv (qsub stop start) step)).toNat

/-- `np.arange start stop step` for a positive step: the values
`start + i * step` for `i < arangeLen start stop step`. -/
def arange (start stop step : ℚ) : List ℚ :=
  (List.range (arangeLen start stop step)).map
    (fun i : ℕ => qadd start (qmul (i : ℚ) step))

/-- Lines 606-608: `left_edges_to_prepand`
(`np.arange(min_chunk - width, edges[0] - width, width)`). -/
def wassLeftEdges (edges : List ℚ) (w minChunk : ℚ) : List ℚ :=
  arange (qsub minChunk w) (qsub (edges.headD 0) w) w

/-- Lines 609-611: `right_edges_to_append`
(`np.arange(edges[-1] + width, max_chunk + width, width)`). -/
def wassRightEdges (edges : List ℚ) (w maxChunk : ℚ) : List ℚ :=
  arange (qadd (edges.getLastD 0) w) (qadd maxChunk w) w

/-- Line 613: `updated_edges`. -/
def wassUpdatedEdges (edges : List ℚ) (w minChunk maxChunk : ℚ) : List ℚ :=
  wassLeftEdges edges w minChunk ++ edges ++ wassRightEdges edges w maxChunk

/-- Lines 614-616: `updated_ref_binned_pdf`, the reference relative
frequencies zero-padded on both sides, one zero per new edge. -/
def wassUpdatedPdf (edges : List ℚ) (freqs : List ℚ) (w minChunk maxChunk : ℚ) : List ℚ :=
  List.replicate (wassLeftEdges edges w minChunk).length (0 : ℚ) ++ freqs ++
    List.replicate (wassRightEdges edges w maxChunk).length (0 : ℚ)

/-- Modelled from the documented behaviour of
`scipy.stats.wasserstein_distance` (called on line 627): the 1-Wasserstein
distance between the two empirical distributions, the integral of the
absolute difference of the two empirical CDFs. -/
def wassersteinExact (xs ys : List ℚ) : ℚ :=
  let pts := sortRat (xs ++ ys)
  qsum ((pts.zip pts.tail).map
    (fun p => qmul |qsub (ecdfAt xs p.1) (ecdfAt ys p.1)| (qsub p.2 p.1)))

/-- `WassersteinDistance._calculate` (lines 581-629): `NotFittedException`
first (lines 582-585), then strip missing data.  Estimated branch
(lines 587-625): `np.min(data)` on line 590 raises `ValueError` on an empty
stripped column; lines 592-604 compute `extra_bins_left`/`extra_bins_right`
whose values are never used afterwards and are omitted here; the edge grid
is extended on both sides (lines 606-616), the data is rebinned onto it,
and the distance is the sum of absolute CDF differences times the bin
width.  Exact branch (line 627): `wasserstein_distance` on the stored raw
sample, raising `ValueError` when either sample is empty. -/
def wassCalculate (s : WassInner) (data : Col) : Except Err (ℚ × WassInner) :=
  if ¬ s.fitted then .error .notFitted
  else
    let vals := removeMissingData data
    if (s.calculationMethod = "auto" ∧ 10000 ≤ s.referenceSize) ∨
        s.calculationMethod = "estimated" then
      match s.binEdges, s.binWidth, s.refRelFreqs with
      | some edges, some w, some freqs =>
          if vals.length = 0 then .error .valueError
          else
            let minChunk := listMin vals
            let maxChunk := listMax vals
            let updatedEdges := wassUpdatedEdges edges w minChunk maxChunk
            let updatedPdf := wassUpdatedPdf edges freqs w minChunk maxChunk
            let chunkPdf := (histCounts updatedEdges vals).map
              (fun c => qdiv (c : ℚ) (vals.length : ℚ))
            let refCdf := cumsum updatedPdf
            let chunkCdf := cumsum chunkPdf
            .ok (qsum ((refCdf.zipWith (fun a b => |qsub a b|) chunkCdf).map
              (fun d => qmul d w)), s)
      | _, _, _ => .error .attributeError
    else
      match s.referenceData with
      | some refv =>
          if refv.length = 0 ∨ vals.length = 0 then .error .valueError
          else .ok (wassersteinExact refv vals, s)
      | none => .error .valueError

/-! ## The `Method` base class (methods.py lines 38-163): threshold state,
`fit`, `calculate`, `alert`. -/

/-- The threshold-related state every `Method` carries (its `__init__`
lines 74-83) around the method-specific inner state `σ`:
`upper/lower_threshold_value` start as `None`,
`upper/lower_threshold_value_limit` come from the subclass constructor. -/
structure MethodState (σ : Type) where
  lowerThresholdValue : Option ℚ := none
  upperThresholdValue : Option ℚ := none
  lowerThresholdValueLimit : Option ℚ := none
  upperThresholdValueLimit : Option ℚ := none
  inner : σ
  deriving DecidableEq, Repr

/-- The per-reference-chunk statistic values of `Method.fit` lines 110-112:
`[self._calculate(chunk) for chunk in self.chunker.split(data)]`, threading
the inner state (for `Chi2Statistic`, `_calculate` stores a p-value per
chunk) and propagating any exception. -/
def chunkResults {σ V : Type} (innerCalc : σ → Col → Except Err (V × σ)) (s : σ) :
    List Col → Except Err (List V × σ)
  | [] => .ok ([], s)
  | c :: cs =>
      match innerCalc s c with
      | .error e => .error e
      | .ok (v, s1) =>
          match chunkResults innerCalc s1 cs with
          | .error e => .error e
          | .ok (vs, s2) => .ok (v :: vs, s2)

/-- `Method.fit` (lines 89-123): run the subclass `_fit`, compute the
statistic on every reference chunk with the freshly fitted state, and set
both threshold values from `calculate_threshold_values(threshold, data,
lower_limit, upper_limit, ...)`.  The chunker (`self.chunker.split`) and
the threshold evaluator (`nannyml.thresholds.calculate_threshold_values`,
whose module is not part of the sources here) are the parameters `chunker`
and `tev`; every claim below holds for all of them. -/
def methodFit {σ V : Type} (innerFit : Col → σ → Except Err σ)
    (innerCalc : σ → Col → Except Err (V × σ))
    (tev : List V → Option ℚ → Option ℚ → Option ℚ × Option ℚ)
    (chunker : Col → List Col) (m : MethodState σ) (ref : Col) :
    Except Err (MethodState σ) :=
  match innerFit ref m.inner with
  | .error e => .error e
  | .ok s1 =>
      match chunkResults innerCalc s1 (chunker ref) with
      | .error e => .error e
      | .ok (rs, s2) =>
          let tv := tev rs m.lowerThresholdValueLimit m.upperThresholdValueLimit
          .ok { m with inner := s2, lowerThresholdValue := tv.1, upperThresholdValue := tv.2 }

/-- `Method.calculate` (lines 130-138): delegate to the subclass
`_calculate`; the threshold fields are untouched. -/
def methodCalculate {σ V : Type} (innerCalc : σ → Col → Except Err (V × σ))
    (m : MethodState σ) (data : Col) : Except Err (V × MethodState σ) :=
  match innerCalc m.inner data with
  | .error e => .error e
  | .ok (v, s1) => .ok (v, { m with inner := s1 })

/-- The inherited `Method.alert` (lines 149-159): below the lower threshold
value or above the upper one, whenever those are set. -/
def methodAlert {σ : Type} (m : MethodState σ) (value : ℚ) : Bool :=
  (match m.lowerThresholdValue with
   | some lo => decide (value < lo)
   | none => false) ||
  (match m.upperThresholdValue with
   | some hi => decide (hi < value)
   | none => false)

/-- `Chi2Statistic.alert` (lines 456-460): overwrite both threshold values
with `None`, ignore the `value` argument, and report an alert exactly when
the stored p-value is below 0.05; reading a never-assigned `_p_value`
raises `AttributeError` (after the threshold fields were already cleared --
the cleared state is unobservable in that case and the model returns only
the error). -/
def chi2Alert (m : MethodState Chi2Inner) (_value : ℚ) :
    Except Err (Bool × MethodState Chi2Inner) :=
  let m1 := { m with lowerThresholdValue := (none : Option ℚ),
                     upperThresholdValue := (none : Option ℚ) }
  match m.inner.pValue with
  | none => .error .attributeError
  | some p => .ok (decide (p < mkRat 1 20), m1)

/-- Bundled inner `_calculate` for Jensen-Shannon as used by the generic
`Method` layer (the value is the vector pair fed to scipy, the state is
unchanged). -/
def jensenShannonInnerCalc (s : Option BinnedState) (d : Col) :
    Except Err ((List ℚ × List ℚ) × Option BinnedState) :=
  match jensenShannonCalculate s d with
  | .error e => .error e
  | .ok v => .ok (v, s)

/-- Bundled inner `_calculate` for Hellinger. -/
def hellingerInnerCalc (s : Option BinnedState) (d : Col) :
    Except Err ((List ℚ × List ℚ) × Option BinnedState) :=
  match hellingerCalculate s d with
  | .error e => .error e
  | .ok v => .ok (v, s)

/-- Bundled inner `_fit` for Jensen-Shannon (never raises). -/
def jensenShannonInnerFit (k : ℕ) (isCat : Bool) (ref : Col) (_ : Option BinnedState) :
    Except Err (Option BinnedState) :=
  .ok (some (jensenShannonFit k isCat ref))

/-- Bundled inner `_fit` for Hellinger (never raises). -/
def hellingerInnerFit (k : ℕ) (isCat : Bool) (ref : Col) (_ : Option BinnedState) :
    Except Err (Option BinnedState) :=
  .ok (some (hellingerFit k isCat ref))

/-- Bundled inner `_fit` for Chi2 (never raises). -/
def chi2InnerFit (ref : Col) (s : Chi2Inner) : Except Err Chi2Inner :=
  .ok (chi2Fit ref s)

/-- Bundled inner `_fit` for L-infinity (never raises). -/
def lInfInnerFit (ref : Col) (s : LInfInner) : Except Err LInfInner :=
  .ok (lInfFit ref s)

/-! ## `MethodFactory` (methods.py lines 166-248). -/

/-- `FeatureType` (lines 166-170). -/
inductive FeatureType where
  | continuous
  | categorical
  deriving DecidableEq, Repr

/-- The factory registry: a mapping from key strings to mappings from
`FeatureType` to a registered class.  `C` is the type of registered
classes; for the built-in registry it is `MethodKind` below, and the
registration scenario of the claims works for any `C`. -/
abbrev Registry (C : Type) := List (String × List (FeatureType × C))

/-- Dictionary lookup on the registry. -/
def registryLookup {C : Type} (r : Registry C) (key : String) :
    Option (List (FeatureType × C)) :=
  (r.find? (fun p => p.1 = key)).map Prod.snd

/-- `MethodFactory.register` (lines 211-248): a new key gets a singleton
inner mapping; an existing key either gains the feature type or (on a
collision, with a logged warning) has it overwritten. -/
def registerMethod {C : Type} (r : Registry C) (key : String) (ft : FeatureType)
    (cls : C) : Registry C :=
  match registryLookup r key with
  | none => r ++ [(key, [(ft, cls)])]
  | some _ =>
      r.map (fun p =>
        if p.1 = key then
          if (p.2.find? (fun q => q.1 = ft)).isSome then
            (p.1, p.2.map (fun q => if q.1 = ft then (ft, cls) else q))
          else (p.1, p.2 ++ [(ft, cls)])
        else p)

/-- The error raised by `MethodFactory.create`
(`InvalidArgumentsException`, lines 192-203).  The message formatting is
abstracted to its content: the unknown-key message embeds the hard-coded
key list of lines 198-199, the unsupported-type message names the key and
the feature type. -/
inductive FactoryError where
  | invalidArgumentsUnknownKey (listedKeys : List String)
  | invalidArgumentsUnsupportedType (key : String) (ft : FeatureType)
  deriving DecidableEq, Repr

/-- The key list hard-coded into the unknown-key error message
(lines 198-199; note the source lists `jensen_shannon` twice). -/
def listedMethodKeys : List String :=
  ["kolmogorov_smirnov", "jensen_shannon", "wasserstein", "chi2",
   "jensen_shannon", "l_infinity", "hellinger"]

/-- `MethodFactory.create` (lines 182-209).  The `isinstance(key, str)`
check is vacuous here since keys are strings by type.  `K` is the type of
the keyword-argument bundle; `method_class(**kwargs)` is modelled as the
pair (registered class, forwarded kwargs). -/
def methodFactoryCreate {C K : Type} (r : Registry C) (key : String)
    (ft : FeatureType) (kwargs : K) : Except FactoryError (C × K) :=
  match registryLookup r key with
  | none => .error (.invalidArgumentsUnknownKey listedMethodKeys)
  | some inner =>
      match inner.find? (fun q => q.1 = ft) with
      | none => .error (.invalidArgumentsUnsupportedType key ft)
      | some q => .ok (q.2, kwargs)

/-- The six registered classes of the module. -/
inductive MethodKind where
  | jensenShannon
  | kolmogorovSmirnov
  | chi2
  | lInfinity
  | wasserstein
  | hellinger
  deriving DecidableEq, Repr

/-- The registry as populated by the decorators at import time (decorators
apply bottom-up, classes in source order: lines 251-252, 330, 409, 473,
525, 632-633). -/
def defaultRegistry : Registry MethodKind :=
  registerMethod (registerMethod (registerMethod (registerMethod (registerMethod
    (registerMethod (registerMethod (registerMethod ([] : Registry MethodKind)
      "jensen_shannon" .categorical .jensenShannon)
      "jensen_shannon" .continuous .jensenShannon)
      "kolmogorov_smirnov" .continuous .kolmogorovSmirnov)
      "chi2" .categorical .chi2)
      "l_infinity" .categorical .lInfinity)
      "wasserstein" .continuous .wasserstein)
      "hellinger" .categorical .hellinger)
      "hellinger" .continuous .hellinger

/-! ## The reducible arithmetic wrappers agree with the field operations. -/

/-- `qadd` is rational addition. -/
theorem qadd_eq (a b : ℚ) : qadd a b = a + b := by
  conv_rhs => rw [← Rat.num_divInt_den a, ← Rat.num_divInt_den b,
    Rat.divInt_add_divInt _ _ (Int.natCast_ne_zero.mpr a.den_nz) (Int.natCast_ne_zero.mpr b.den_nz)]
  rfl

/-- `qsub` is rational subtraction. -/
theorem qsub_eq (a b : ℚ) : qsub a b = a - b := by
  unfold qsub
  rw [qadd_eq, sub_eq_add_neg]

/-- `qmul` is rational multiplication. -/
theorem qmul_eq (a b : ℚ) : qmul a b = a * b := by
  conv_rhs => rw [← Rat.num_divInt_den a, ← Rat.num_divInt_den b, Rat.divInt_mul_divInt']
  rfl

/-- `qdiv` is rational division (both send a zero divisor to 0). -/
theorem qdiv_eq (a b : ℚ) : qdiv a b = a / b := by
  rw [Rat.div_def']
  rfl

/-- `qsum` is the list sum. -/
theorem qsum_eq (l : List ℚ) : qsum l = l.sum := by
  induction l with
  | nil => rfl
  | cons x xs ih =>
      simp only [qsum, List.foldr_cons, List.sum_cons] at *
      rw [qadd_eq, ih]

/-! ## Helper lemmas. -/

/-- Stripping a column of plain values changes nothing. -/
theorem removeMissingData_map_some (l : List ℚ) : removeMissingData (l.map some) = l := by
  induction l with
  | nil => rfl
  | cons x xs ih =>
      simp only [List.map_cons, removeMissingData, List.filterMap_cons, id] at *
      rw [ih]

/-- The treatment tag stored by the shared fit body is the one computed by
the treatment rule. -/
theorem binnedFit_treatAsType (k : ℕ) (b : Bool) (c : Col) :
    (binnedFit k b c).treatAsType = treatAsTypeOf b c := by
  by_cases h : treatAsTypeOf b c = "cont"
  · simp [binnedFit, h]
  · simp [binnedFit, h]

/-- The treatment rule on a non-categorical column, spelled out with the
field operations. -/
theorem treatAsTypeOf_false_eq_cont (c : Col) :
    (treatAsTypeOf false c = "cont" ↔
      50 < nUniqueCol c ∨ (1 : ℚ) / 10 < (nUniqueCol c : ℚ) / (c.length : ℚ)) ∧
    (treatAsTypeOf false c = "cat" ↔
      ¬ (50 < nUniqueCol c ∨ (1 : ℚ) / 10 < (nUniqueCol c : ℚ) / (c.length : ℚ))) := by
  have hq : mkRat 1 10 < qdiv (nUniqueCol c : ℚ) (c.length : ℚ) ↔
      (1 : ℚ) / 10 < (nUniqueCol c : ℚ) / (c.length : ℚ) := by
    rw [qdiv_eq, Rat.mkRat_eq_divInt, Rat.divInt_eq_div]
    norm_num
  have hf : treatAsTypeOf false c =
      if 50 < nUniqueCol c ∨ mkRat 1 10 < qdiv (nUniqueCol c : ℚ) (c.length : ℚ) then "cont"
      else "cat" := rfl
  rw [hf]
  by_cases h : 50 < nUniqueCol c ∨ mkRat 1 10 < qdiv (nUniqueCol c : ℚ) (c.length : ℚ)
  · rw [if_pos h]
    have h2 : 50 < nUniqueCol c ∨ (1 : ℚ) / 10 < (nUniqueCol c : ℚ) / (c.length : ℚ) :=
      h.imp (fun x => x) hq.mp
    exact ⟨iff_of_true rfl h2, iff_of_false (by decide) (not_not_intro h2)⟩
  · rw [if_neg h]
    have h2 : ¬ (50 < nUniqueCol c ∨ (1 : ℚ) / 10 < (nUniqueCol c : ℚ) / (c.length : ℚ)) :=
      fun hx => h (hx.imp (fun x => x) hq.mpr)
    exact ⟨iff_of_false (by decide) h2, iff_of_true rfl h2⟩

/-! ## Claim C1. -/

/-- C1 (amended): for `JensenShannonDistance._fit` and
`HellingerDistance._fit` on a reference column whose native type is not
categorical, the column is treated as continuous if and only if the number
of distinct values exceeds 50 OR the number of distinct values divided by
the sample size exceeds 0.1 (the source combines the two conditions with
`or`, not `and`); otherwise it is treated as categorical.  For Hellinger
the rule applies to the missing-stripped column. -/
theorem jsHellinger_treat_cont_iff_or (k : ℕ) (ref : Col) :
    ((jensenShannonFit k false ref).treatAsType = "cont" ↔
      50 < nUniqueCol ref ∨ (1 : ℚ) / 10 < (nUniqueCol ref : ℚ) / (ref.length : ℚ)) ∧
    ((jensenShannonFit k false ref).treatAsType = "cat" ↔
      ¬ (50 < nUniqueCol ref ∨ (1 : ℚ) / 10 < (nUniqueCol ref : ℚ) / (ref.length : ℚ))) ∧
    ((hellingerFit k false ref).treatAsType = "cont" ↔
      50 < nUniqueCol ((removeMissingData ref).map some) ∨
        (1 : ℚ) / 10 < (nUniqueCol ((removeMissingData ref).map some) : ℚ) /
          (((removeMissingData ref).map some).length : ℚ)) ∧
    ((hellingerFit k false ref).treatAsType = "cat" ↔
      ¬ (50 < nUniqueCol ((removeMissingData ref).map some) ∨
        (1 : ℚ) / 10 < (nUniqueCol ((removeMissingData ref).map some) : ℚ) /
          (((removeMissingData ref).map some).length : ℚ))) := by
  have h1 := treatAsTypeOf_false_eq_cont ref
  have h2 := treatAsTypeOf_false_eq_cont ((removeMissingData ref).map some)
  unfold jensenShannonFit hellingerFit
  rw [binnedFit_treatAsType, binnedFit_treatAsType]
  exact ⟨h1.1, h1.2, h2.1, h2.2⟩

/-- C1 (counterexample): a three-valued non-categorical reference column
has only 3 ≤ 50 distinct values, yet both fits treat it as continuous
(its distinct-value ratio 1 exceeds 0.1 and the source combines the two
conditions with `or`); under the claim (`and`) it would be categorical. -/
theorem jsHellinger_treat_counterexample :
    (jensenShannonFit 1 false [some 1, some 2, some 3]).treatAsType = "cont" ∧
    (hellingerFit 1 false [some 1, some 2, some 3]).treatAsType = "cont" ∧
    ¬ 50 < nUniqueCol [some 1, some 2, some 3] := by
  refine ⟨by decide, by decide, by decide⟩

/-! ## Claim C2. -/

/-- C2 (amended): on a never-fitted instance, `calculate` never returns a
value: Kolmogorov-Smirnov, Chi2, L-infinity and Wasserstein raise
`NotFittedException`; Jensen-Shannon and Hellinger have no fitted check and
instead fail with `AttributeError` when reading their never-assigned state
attributes. -/
theorem calculate_unfitted (method : String) (nBins : ℕ) (data : Col)
    (chi2fn : List (ℚ × ℕ) → List (ℚ × ℕ) → Except Err (ℚ × ℚ)) :
    ksCalculate (ksInit method nBins) data = .error .notFitted ∧
    chi2Calculate chi2fn chi2Init data = .error .notFitted ∧
    lInfCalculate lInfInit data = .error .notFitted ∧
    wassCalculate (wassInit method nBins) data = .error .notFitted ∧
    jensenShannonCalculate jensenShannonInit data = .error .attributeError ∧
    hellingerCalculate hellingerInit data = .error .attributeError :=
  ⟨rfl, rfl, rfl, rfl, rfl, rfl⟩

/-- C2 (counterexample): an unfitted `JensenShannonDistance` (and likewise
`HellingerDistance`) answers `calculate` with an `AttributeError`, not with
the "not fitted" error the claim requires of every concrete method. -/
theorem calculate_unfitted_counterexample :
    jensenShannonCalculate jensenShannonInit [some 1] = .error .attributeError ∧
    hellingerCalculate hellingerInit [some 1] = .error .attributeError ∧
    Err.attributeError ≠ Err.notFitted :=
  ⟨rfl, rfl, by decide⟩

/-! ## Claim C3. -/

/-- C3: `Chi2Statistic.alert(value)` ignores its argument and both
threshold values entirely and returns true exactly when the stored p-value
is below 0.05; when no p-value was ever computed the call fails with an
`AttributeError` instead of reporting an alert through the inherited
threshold logic. -/
theorem chi2Alert_spec (m : MethodState Chi2Inner) (v w : ℚ) (lt ut : Option ℚ) :
    chi2Alert m v = chi2Alert m w ∧
    chi2Alert { m with lowerThresholdValue := lt, upperThresholdValue := ut } v =
      chi2Alert m v ∧
    (∀ p, m.inner.pValue = some p →
      chi2Alert m v =
        .ok (decide (p < 1 / 20),
          { m with lowerThresholdValue := none, upperThresholdValue := none }) ∧
      ((∃ m2, chi2Alert m v = .ok (true, m2)) ↔ p < 1 / 20)) ∧
    (m.inner.pValue = none →
      chi2Alert m v = .error .attributeError ∧
      ∀ b m2, chi2Alert m v ≠ .ok (b, m2)) := by
  refine ⟨rfl, rfl, ?_, ?_⟩
  · intro p hp
    have h1 : chi2Alert m v =
        .ok (decide (p < mkRat 1 20),
          { m with lowerThresholdValue := none, upperThresholdValue := none }) := by
      unfold chi2Alert
      rw [hp]
    have h20 : (mkRat 1 20 : ℚ) = 1 / 20 := by
      rw [Rat.mkRat_eq_divInt, Rat.divInt_eq_div]
      norm_num
    rw [h20] at h1
    refine ⟨h1, ?_⟩
    constructor
    · rintro ⟨m2, hm2⟩
      rw [h1] at hm2
      injection hm2 with h3
      injection h3 with h4 h5
      exact of_decide_eq_true h4
    · intro hlt
      exact ⟨_, by rw [h1, decide_eq_true hlt]⟩
  · intro hp
    have h1 : chi2Alert m v = .error .attributeError := by
      unfold chi2Alert
      rw [hp]
    exact ⟨h1, fun b m2 hc => by rw [h1] at hc; exact Except.noConfusion hc⟩

/-- C3 (witness): a state holding p-value 0.01 alerts (0.01 < 0.05)
regardless of the argument 0.9, and a state with no p-value fails with
`AttributeError`. -/
theorem chi2Alert_spec_witness :
    (({ lowerThresholdValue := some 0, upperThresholdValue := some 1,
        inner := { referenceDataVcs := none, pValue := some (mkRat 1 100),
                   fitted := true } } : MethodState Chi2Inner).inner.pValue =
      some (mkRat 1 100) ∧
      ((∃ m2, chi2Alert ({ lowerThresholdValue := some 0, upperThresholdValue := some 1,
                           inner := { referenceDataVcs := none, pValue := some (mkRat 1 100),
                                      fitted := true } } : MethodState Chi2Inner)
          (mkRat 9 10) = .ok (true, m2)) ↔
        (mkRat 1 100 : ℚ) < 1 / 20)) ∧
    (({ inner := { referenceDataVcs := none, pValue := none,
                   fitted := true } } : MethodState Chi2Inner).inner.pValue = none ∧
      chi2Alert ({ inner := { referenceDataVcs := none, pValue := none,
                              fitted := true } } : MethodState Chi2Inner)
        (mkRat 9 10) = .error .attributeError) :=
  ⟨⟨rfl, ((chi2Alert_spec _ (mkRat 9 10) 0 none none).2.2.1 (mkRat 1 100) rfl).2⟩,
   ⟨rfl, ((chi2Alert_spec _ (mkRat 9 10) 0 none none).2.2.2 rfl).1⟩⟩

/-! ## Claim C8. -/

/-- C8 (amended): `Method.fit` assigns both threshold values from the
per-reference-chunk statistic list passed through the threshold evaluator
with the hard limits; `Method.calculate` never changes them; but
`Chi2Statistic.alert` re-assigns both threshold values (to `None`) on every
successful call, so they are not assigned only during `fit`. -/
theorem method_thresholds_set_in_fit :
    (∀ (σ V : Type) (innerFit : Col → σ → Except Err σ)
        (innerCalc : σ → Col → Except Err (V × σ))
        (tev : List V → Option ℚ → Option ℚ → Option ℚ × Option ℚ)
        (chunker : Col → List Col) (m : MethodState σ) (ref : Col) (m2 : MethodState σ),
        methodFit innerFit innerCalc tev chunker m ref = .ok m2 →
        ∃ s1 rs s2, innerFit ref m.inner = .ok s1 ∧
          chunkResults innerCalc s1 (chunker ref) = .ok (rs, s2) ∧
          m2 = { m with inner := s2,
                        lowerThresholdValue :=
                          (tev rs m.lowerThresholdValueLimit m.upperThresholdValueLimit).1,
                        upperThresholdValue :=
                          (tev rs m.lowerThresholdValueLimit m.upperThresholdValueLimit).2 }) ∧
    (∀ (σ V : Type) (innerCalc : σ → Col → Except Err (V × σ))
        (m : MethodState σ) (data : Col) (v : V) (m2 : MethodState σ),
        methodCalculate innerCalc m data = .ok (v, m2) →
        m2.lowerThresholdValue = m.lowerThresholdValue ∧
        m2.upperThresholdValue = m.upperThresholdValue ∧
        m2.lowerThresholdValueLimit = m.lowerThresholdValueLimit ∧
        m2.upperThresholdValueLimit = m.upperThresholdValueLimit) ∧
    (∀ (m : MethodState Chi2Inner) (v : ℚ) (b : Bool) (m2 : MethodState Chi2Inner),
        chi2Alert m v = .ok (b, m2) →
        m2.lowerThresholdValue = none ∧ m2.upperThresholdValue = none) := by
  refine ⟨?_, ?_, ?_⟩
  · intro σ V innerFit innerCalc tev chunker m ref m2 hfit
    unfold methodFit at hfit
    cases hf : innerFit ref m.inner with
    | error e => simp only [hf] at hfit; exact Except.noConfusion hfit
    | ok s1 =>
        cases hc : chunkResults innerCalc s1 (chunker ref) with
        | error e => simp only [hf, hc] at hfit; exact Except.noConfusion hfit
        | ok pr =>
            obtain ⟨rs, s2⟩ := pr
            simp only [hf, hc, Except.ok.injEq] at hfit
            exact ⟨s1, rs, s2, rfl, hc, hfit.symm⟩
  · intro σ V innerCalc m data v m2 hcalc
    unfold methodCalculate at hcalc
    cases hc : innerCalc m.inner data with
    | error e => simp only [hc] at hcalc; exact Except.noConfusion hcalc
    | ok pr =>
        obtain ⟨v1, s1⟩ := pr
        simp only [hc, Except.ok.injEq, Prod.mk.injEq] at hcalc
        rw [← hcalc.2]
        exact ⟨rfl, rfl, rfl, rfl⟩
  · intro m v b m2 halert
    unfold chi2Alert at halert
    cases hp : m.inner.pValue with
    | none => simp only [hp] at halert; exact Except.noConfusion halert
    | some p =>
        simp only [hp, Except.ok.injEq, Prod.mk.injEq] at halert
        rw [← halert.2]
        exact ⟨rfl, rfl⟩

/-- C8 (counterexample): on a fitted `Chi2Statistic` whose threshold
values were set during `fit` (here to 0 and 1), a single `alert` call
re-assigns both to `None` -- threshold values are thus not assigned
exactly once during `fit`. -/
theorem chi2Alert_clears_thresholds_counterexample :
    chi2Alert ({ lowerThresholdValue := some 0, upperThresholdValue := some 1,
                 inner := { referenceDataVcs := some [(1, 2)], pValue := some (mkRat 1 10),
                            fitted := true } } : MethodState Chi2Inner) (mkRat 9 10) =
      .ok (false, { lowerThresholdValue := none, upperThresholdValue := none,
                    inner := { referenceDataVcs := some [(1, 2)], pValue := some (mkRat 1 10),
                               fitted := true } }) ∧
    some (0 : ℚ) ≠ (none : Option ℚ) ∧ some (1 : ℚ) ≠ (none : Option ℚ) :=
  ⟨rfl, by decide, by decide⟩

/-- C8 (witness): the fit part of `method_thresholds_set_in_fit` applied to
a concrete trivial method whose evaluator returns the hard limits. -/
theorem method_thresholds_set_in_fit_witness :
    (methodFit (fun (_ : Col) (s : Unit) => (.ok s : Except Err Unit))
        (fun (s : Unit) (_ : Col) => (.ok ((0 : ℚ), s) : Except Err (ℚ × Unit)))
        (fun _ lo hi => (lo, hi)) (fun c => [c])
        ({ lowerThresholdValueLimit := some 5, upperThresholdValueLimit := some 7,
           inner := () } : MethodState Unit) [] =
      .ok { lowerThresholdValue := some 5, upperThresholdValue := some 7,
            lowerThresholdValueLimit := some 5, upperThresholdValueLimit := some 7,
            inner := () }) ∧
    (∃ s1 rs s2,
      (.ok () : Except Err Unit) = .ok s1 ∧
      chunkResults (fun (s : Unit) (_ : Col) => (.ok ((0 : ℚ), s) : Except Err (ℚ × Unit)))
        s1 [[]] = .ok (rs, s2) ∧
      ({ lowerThresholdValue := some 5, upperThresholdValue := some 7,
         lowerThresholdValueLimit := some 5, upperThresholdValueLimit := some 7,
         inner := () } : MethodState Unit) =
        { lowerThresholdValue := some 5, upperThresholdValue := some 7,
          lowerThresholdValueLimit := some 5, upperThresholdValueLimit := some 7,
          inner := s2 }) :=
  ⟨rfl, method_thresholds_set_in_fit.1 Unit ℚ
    (fun _ s => .ok s) (fun s _ => .ok (0, s)) (fun _ lo hi => (lo, hi)) (fun c => [c])
    { lowerThresholdValueLimit := some 5, upperThresholdValueLimit := some 7, inner := () }
    []
    { lowerThresholdValue := some 5, upperThresholdValue := some 7,
      lowerThresholdValueLimit := some 5, upperThresholdValueLimit := some 7, inner := () }
    rfl⟩

/-! ## Claim C5. -/

/-- `find?` skips a prefix in which nothing matches. -/
theorem find?_append_of_none {α : Type} (p : α → Bool) (l1 l2 : List α)
    (h : l1.find? p = none) : (l1 ++ l2).find? p = l2.find? p := by
  induction l1 with
  | nil => rfl
  | cons x xs ih =>
      by_cases hx : p x
      · rw [List.find?_cons_of_pos _ hx] at h
        exact Option.noConfusion h
      · rw [List.find?_cons_of_neg _ hx] at h
        rw [List.cons_append, List.find?_cons_of_neg _ hx]
        exact ih h

/-- C5: `MethodFactory.create` raises an invalid-argument error carrying
the hard-coded key list when the key is unknown (and that list names
exactly the keys of the registry built at import time), raises an
invalid-argument error when the feature type is not registered for the
key, and otherwise returns the class registered for (key, feature type)
with the kwargs forwarded; registering a class under ("custom",
continuous) makes create("custom", continuous) return it while
create("custom", categorical) fails with invalid arguments. -/
theorem methodFactory_create_spec :
    (∀ (C K : Type) (r : Registry C) (key : String) (ft : FeatureType) (kwargs : K),
      (registryLookup r key = none →
        methodFactoryCreate r key ft kwargs =
          .error (.invalidArgumentsUnknownKey listedMethodKeys)) ∧
      (∀ entry, registryLookup r key = some entry →
        entry.find? (fun q => q.1 = ft) = none →
        methodFactoryCreate r key ft kwargs =
          .error (.invalidArgumentsUnsupportedType key ft)) ∧
      (∀ entry q, registryLookup r key = some entry →
        entry.find? (fun q2 => q2.1 = ft) = some q →
        methodFactoryCreate r key ft kwargs = .ok (q.2, kwargs)) ∧
      (∀ (cls : C), registryLookup r "custom" = none →
        methodFactoryCreate (registerMethod r "custom" .continuous cls) "custom"
          .continuous kwargs = .ok (cls, kwargs) ∧
        methodFactoryCreate (registerMethod r "custom" .continuous cls) "custom"
          .categorical kwargs =
            .error (.invalidArgumentsUnsupportedType "custom" .categorical))) ∧
    (∀ s, s ∈ listedMethodKeys ↔ s ∈ defaultRegistry.map Prod.fst) := by
  constructor
  · intro C K r key ft kwargs
    refine ⟨?_, ?_, ?_, ?_⟩
    · intro h
      unfold methodFactoryCreate
      rw [h]
    · intro entry h1 h2
      unfold methodFactoryCreate
      simp only [h1, h2]
    · intro entry q h1 h2
      unfold methodFactoryCreate
      simp only [h1, h2]
    · intro cls h
      have hfind : r.find? (fun p => p.1 = "custom") = none := by
        unfold registryLookup at h
        exact Option.map_eq_none.mp h
      have hreg : registerMethod r "custom" FeatureType.continuous cls =
          r ++ [("custom", [(FeatureType.continuous, cls)])] := by
        unfold registerMethod registryLookup
        rw [hfind]
        rfl
      have hlook : registryLookup (registerMethod r "custom" FeatureType.continuous cls)
          "custom" = some [(FeatureType.continuous, cls)] := by
        rw [hreg]
        unfold registryLookup
        rw [find?_append_of_none _ _ _ hfind]
        rfl
      constructor
      · unfold methodFactoryCreate
        rw [hlook]
        rfl
      · unfold methodFactoryCreate
        rw [hlook]
        rfl
  · have hkeys : defaultRegistry.map Prod.fst =
        ["jensen_shannon", "kolmogorov_smirnov", "chi2", "l_infinity", "wasserstein",
         "hellinger"] := by decide
    intro s
    rw [hkeys]
    unfold listedMethodKeys
    simp only [List.mem_cons, List.not_mem_nil, or_false]
    tauto

/-- C5 (witness): the empty registry knows no key, so creation fails with
the listed built-in keys; registering a class (here the number 5) under
("custom", continuous) lets it be created with its kwargs (here 7)
forwarded, while ("custom", categorical) is rejected. -/
theorem methodFactory_create_spec_witness :
    (registryLookup ([] : Registry ℕ) "x" = none ∧
      methodFactoryCreate ([] : Registry ℕ) "x" .continuous (7 : ℕ) =
        .error (.invalidArgumentsUnknownKey listedMethodKeys)) ∧
    (registryLookup ([] : Registry ℕ) "custom" = none ∧
      methodFactoryCreate (registerMethod ([] : Registry ℕ) "custom" .continuous 5) "custom"
        .continuous (7 : ℕ) = .ok (5, 7) ∧
      methodFactoryCreate (registerMethod ([] : Registry ℕ) "custom" .continuous 5) "custom"
        .categorical (7 : ℕ) =
          .error (.invalidArgumentsUnsupportedType "custom" .categorical)) :=
  ⟨⟨rfl, (methodFactory_create_spec.1 ℕ ℕ [] "x" .continuous 7).1 rfl⟩,
   ⟨rfl, (methodFactory_create_spec.1 ℕ ℕ [] "custom" .continuous 7).2.2.2 5 rfl⟩⟩

/-! ## Claim C9. -/

/-- C9: every concrete method except Jensen-Shannon strips missing values
in both `fit` and `calculate`, so replacing a column by its
missing-stripped version changes nothing for Hellinger,
Kolmogorov-Smirnov, Chi2, L-infinity and Wasserstein; Jensen-Shannon
never removes missing values: on a categorical-fitted state
(labels 1, 2 with probability 1/2 each), a column with values 1, 2 and two
missing entries yields data masses 1/4, 1/4 -- the denominator 4 counts
the missing entries, which match no stored bin and surface as the 1/2
leftover bin -- while the stripped column yields 1/2, 1/2 and no leftover
bin; its `fit` likewise changes when missing entries are dropped. -/
theorem jensenShannon_keeps_missing (k : ℕ) (b : Bool) (ref data : Col)
    (sOpt : Option BinnedState) (sk : KSInner) (sc : Chi2Inner) (sl : LInfInner)
    (sw : WassInner)
    (chi2fn : List (ℚ × ℕ) → List (ℚ × ℕ) → Except Err (ℚ × ℚ)) :
    hellingerFit k b ref = hellingerFit k b ((removeMissingData ref).map some) ∧
    hellingerCalculate sOpt data =
      hellingerCalculate sOpt ((removeMissingData data).map some) ∧
    ksFit ref sk = ksFit ((removeMissingData ref).map some) sk ∧
    ksCalculate sk data = ksCalculate sk ((removeMissingData data).map some) ∧
    chi2Fit ref sc = chi2Fit ((removeMissingData ref).map some) sc ∧
    chi2Calculate chi2fn sc data =
      chi2Calculate chi2fn sc ((removeMissingData data).map some) ∧
    lInfFit ref sl = lInfFit ((removeMissingData ref).map some) sl ∧
    lInfCalculate sl data = lInfCalculate sl ((removeMissingData data).map some) ∧
    wassFit ref sw = wassFit ((removeMissingData ref).map some) sw ∧
    wassCalculate sw data = wassCalculate sw ((removeMissingData data).map some) ∧
    jensenShannonCalculate (some (binnedFit 1 true [some 1, some 1, some 2, some 2]))
        [some 1, some 2, none, none] =
      .ok ([mkRat 1 2, mkRat 1 2, 0], [mkRat 1 4, mkRat 1 4, mkRat 1 2]) ∧
    jensenShannonCalculate (some (binnedFit 1 true [some 1, some 1, some 2, some 2]))
        ((removeMissingData [some 1, some 2, none, none]).map some) =
      .ok ([mkRat 1 2, mkRat 1 2], [mkRat 1 2, mkRat 1 2]) ∧
    jensenShannonFit 1 true [some 1, none] ≠
      jensenShannonFit 1 true ((removeMissingData [some 1, none]).map some) := by
  refine ⟨?_, ?_, ?_, ?_, ?_, ?_, ?_, ?_, ?_, ?_, ?_, ?_, ?_⟩
  · simp only [hellingerFit, removeMissingData_map_some]
  · simp only [hellingerCalculate, removeMissingData_map_some]
  · simp only [ksFit, removeMissingData_map_some]
  · simp only [ksCalculate, removeMissingData_map_some]
  · simp only [chi2Fit, removeMissingData_map_some]
  · simp only [chi2Calculate, removeMissingData_map_some]
  · simp only [lInfFit, removeMissingData_map_some]
  · simp only [lInfCalculate, removeMissingData_map_some]
  · simp only [wassFit, removeMissingData_map_some]
  · simp only [wassCalculate, removeMissingData_map_some]
  · rfl
  · rfl
  · decide

/-! ## Claim C4. -/

/-- When the data mass inside the stored bins falls short of 1, the
leftover branch fires and appends the leftover to the data vector and a 0
to the reference vector. -/
theorem appendLeftover_of_lt (ref dp : List ℚ) (h : qsum dp < 1) :
    appendLeftover ref dp = (ref ++ [0], dp ++ [qsub 1 (qsum dp)]) := by
  unfold appendLeftover
  rw [if_pos]
  rw [qsub_eq]
  linarith

/-- C4: for `JensenShannonDistance._calculate` and
`HellingerDistance._calculate` on a fitted state whose reference vector
sums to 1 (as `_fit` produces) and matches the data vector in length, when
the incoming data carries mass outside all stored bins (data vector sum
below 1), exactly one synthetic bin holding the leftover is appended to
the data vector with a reference probability of 0; the two compared
vectors then have equal length and each sums to 1. -/
theorem leftover_bin_spec (st : BinnedState) (data : Col)
    (hsum : qsum st.referenceProbaInBins = 1) :
    (qsum (dataProbaInBins st data.length (removeMissingData data)) < 1 →
      (dataProbaInBins st data.length (removeMissingData data)).length =
        st.referenceProbaInBins.length →
      jensenShannonCalculate (some st) data =
        .ok (st.referenceProbaInBins ++ [0],
          dataProbaInBins st data.length (removeMissingData data) ++
            [qsub 1 (qsum (dataProbaInBins st data.length (removeMissingData data)))]) ∧
      (st.referenceProbaInBins ++ [(0 : ℚ)]).length =
        (dataProbaInBins st data.length (removeMissingData data) ++
          [qsub 1 (qsum (dataProbaInBins st data.length (removeMissingData data)))]).length ∧
      (st.referenceProbaInBins ++ [(0 : ℚ)]).length =
        st.referenceProbaInBins.length + 1 ∧
      qsum (st.referenceProbaInBins ++ [(0 : ℚ)]) = 1 ∧
      qsum (dataProbaInBins st data.length (removeMissingData data) ++
        [qsub 1 (qsum (dataProbaInBins st data.length (removeMissingData data)))]) = 1) ∧
    (qsum (dataProbaInBins st (removeMissingData data).length (removeMissingData data)) < 1 →
      (dataProbaInBins st (removeMissingData data).length (removeMissingData data)).length =
        st.referenceProbaInBins.length →
      hellingerCalculate (some st) data =
        .ok (st.referenceProbaInBins ++ [0],
          dataProbaInBins st (removeMissingData data).length (removeMissingData data) ++
            [qsub 1 (qsum (dataProbaInBins st (removeMissingData data).length
              (removeMissingData data)))]) ∧
      (st.referenceProbaInBins ++ [(0 : ℚ)]).length =
        (dataProbaInBins st (removeMissingData data).length (removeMissingData data) ++
          [qsub 1 (qsum (dataProbaInBins st (removeMissingData data).length
            (removeMissingData data)))]).length ∧
      (st.referenceProbaInBins ++ [(0 : ℚ)]).length =
        st.referenceProbaInBins.length + 1 ∧
      qsum (st.referenceProbaInBins ++ [(0 : ℚ)]) = 1 ∧
      qsum (dataProbaInBins st (removeMissingData data).length (removeMissingData data) ++
        [qsub 1 (qsum (dataProbaInBins st (removeMissingData data).length
          (removeMissingData data)))]) = 1) := by
  have hrefsum : qsum (st.referenceProbaInBins ++ [(0 : ℚ)]) = 1 := by
    rw [qsum_eq] at hsum ⊢
    rw [List.sum_append, List.sum_singleton, hsum]
    ring
  have hdpsum : ∀ dp : List ℚ, qsum (dp ++ [qsub 1 (qsum dp)]) = 1 := by
    intro dp
    rw [qsum_eq, List.sum_append, List.sum_singleton, qsub_eq, qsum_eq]
    ring
  constructor
  · intro hlt hlen
    refine ⟨?_, ?_, ?_, hrefsum, hdpsum _⟩
    · show Except.ok (appendLeftover st.referenceProbaInBins
        (dataProbaInBins st data.length (removeMissingData data))) = _
      rw [appendLeftover_of_lt _ _ hlt]
    · simp [hlen]
    · simp
  · intro hlt hlen
    refine ⟨?_, ?_, ?_, hrefsum, hdpsum _⟩
    · show Except.ok (appendLeftover st.referenceProbaInBins
        (dataProbaInBins st (removeMissingData data).length (removeMissingData data))) = _
      rw [appendLeftover_of_lt _ _ hlt]
    · simp [hlen]
    · simp

/-- C4 (witness): a categorical state fitted on 1,1,2,2 (reference vector
1/2, 1/2 summing to 1) fed the single out-of-bins value 3: the data vector
is 0, 0 with sum 0 < 1, so one leftover bin of mass 1 is appended and both
extended vectors sum to 1. -/
theorem leftover_bin_spec_witness :
    qsum ((binnedFit 1 true [some 1, some 1, some 2, some 2]).referenceProbaInBins ++
      [(0 : ℚ)]) = 1 ∧
    qsum (dataProbaInBins (binnedFit 1 true [some 1, some 1, some 2, some 2])
        ([some 3] : Col).length (removeMissingData [some 3]) ++
      [qsub 1 (qsum (dataProbaInBins (binnedFit 1 true [some 1, some 1, some 2, some 2])
        ([some 3] : Col).length (removeMissingData [some 3])))]) = 1 ∧
    ((binnedFit 1 true [some 1, some 1, some 2, some 2]).referenceProbaInBins ++
      [(0 : ℚ)]).length =
      (binnedFit 1 true [some 1, some 1, some 2, some 2]).referenceProbaInBins.length + 1 ∧
    qsum (dataProbaInBins (binnedFit 1 true [some 1, some 1, some 2, some 2])
        (removeMissingData [some 3]).length (removeMissingData [some 3]) ++
      [qsub 1 (qsum (dataProbaInBins (binnedFit 1 true [some 1, some 1, some 2, some 2])
        (removeMissingData [some 3]).length (removeMissingData [some 3])))]) = 1 := by
  have h := leftover_bin_spec (binnedFit 1 true [some 1, some 1, some 2, some 2]) [some 3]
    (by decide)
  have h1 := h.1 (by decide) (by decide)
  have h2 := h.2 (by decide) (by decide)
  exact ⟨h1.2.2.2.1, h1.2.2.2.2, h1.2.2.1, h2.2.2.2.2⟩

/-! ## Claim C6. -/

/-- Every member of a list is at most its max-fold. -/
theorem le_foldr_max (l : List ℚ) (b x : ℚ) (hx : x ∈ l) : x ≤ l.foldr max b := by
  induction l with
  | nil => cases hx
  | cons y ys ih =>
      rcases List.mem_cons.mp hx with h | h
      · rw [h]; exact le_max_left _ _
      · exact le_trans (ih h) (le_max_right _ _)

/-- The base is at most the max-fold. -/
theorem base_le_foldr_max (l : List ℚ) (b : ℚ) : b ≤ l.foldr max b := by
  induction l with
  | nil => exact le_refl b
  | cons y ys ih => exact le_trans ih (le_max_right _ _)

/-- A max-fold is the base or a member. -/
theorem foldr_max_mem_or (l : List ℚ) (b : ℚ) : l.foldr max b = b ∨ l.foldr max b ∈ l := by
  induction l with
  | nil => exact Or.inl rfl
  | cons y ys ih =>
      show max y (ys.foldr max b) = b ∨ max y (ys.foldr max b) ∈ y :: ys
      rcases le_total y (ys.foldr max b) with h | h
      · rw [max_eq_right h]
        rcases ih with h2 | h2
        · exact Or.inl h2
        · exact Or.inr (List.mem_cons_of_mem _ h2)
      · rw [max_eq_left h]
        exact Or.inr (List.mem_cons_self _ _)

/-- A left max-fold is its start or a member. -/
theorem foldl_max_mem_or (xs : List ℚ) (a : ℚ) : xs.foldl max a = a ∨ xs.foldl max a ∈ xs := by
  induction xs generalizing a with
  | nil => exact Or.inl rfl
  | cons y ys ih =>
      show ys.foldl max (max a y) = a ∨ ys.foldl max (max a y) ∈ y :: ys
      rcases ih (max a y) with h | h
      · rcases le_total a y with h2 | h2
        · rw [h, max_eq_right h2]
          exact Or.inr (List.mem_cons_self _ _)
        · rw [h, max_eq_left h2]
          exact Or.inl rfl
      · exact Or.inr (List.mem_cons_of_mem _ h)

/-- A left max-fold bounds its start and every member. -/
theorem le_foldl_max (xs : List ℚ) (a : ℚ) :
    a ≤ xs.foldl max a ∧ ∀ x ∈ xs, x ≤ xs.foldl max a := by
  induction xs generalizing a with
  | nil => exact ⟨le_refl a, fun x hx => absurd hx (List.not_mem_nil x)⟩
  | cons y ys ih =>
      refine ⟨le_trans (le_max_left a y) (ih (max a y)).1, ?_⟩
      intro x hx
      rcases List.mem_cons.mp hx with h | h
      · rw [h]
        exact le_trans (le_max_right a y) (ih (max a y)).1
      · exact (ih (max a y)).2 x h

/-- `listMax` of a nonempty list is a member. -/
theorem listMax_mem (l : List ℚ) (h : l ≠ []) : listMax l ∈ l := by
  cases l with
  | nil => exact absurd rfl h
  | cons x xs =>
      show xs.foldl max x ∈ x :: xs
      rcases foldl_max_mem_or xs x with h2 | h2
      · rw [h2]
        exact List.mem_cons_self _ _
      · exact List.mem_cons_of_mem _ h2

/-- `listMax` bounds every member. -/
theorem le_listMax (l : List ℚ) (x : ℚ) (hx : x ∈ l) : x ≤ listMax l := by
  cases l with
  | nil => cases hx
  | cons y ys =>
      rcases List.mem_cons.mp hx with h | h
      · rw [h]
        exact (le_foldl_max ys y).1
      · exact (le_foldl_max ys y).2 x h

/-- Two cut points below/above the same members give the same ECDF value. -/
theorem ecdfAt_congr (xs : List ℚ) (t m : ℚ) (h : ∀ x ∈ xs, (x ≤ t ↔ x ≤ m)) :
    ecdfAt xs t = ecdfAt xs m := by
  unfold ecdfAt
  have hf : xs.filter (fun x => decide (x ≤ t)) = xs.filter (fun x => decide (x ≤ m)) :=
    List.filter_congr (fun a ha => by rw [decide_eq_decide]; exact h a ha)
  rw [hf]

/-- The two-sample KS statistic over the merged sample points dominates
the ECDF difference at every cut point: the model computes the true
supremum of the absolute ECDF difference. -/
theorem ecdfAt_diff_le_ks2samp (xs ys : List ℚ) (t : ℚ) :
    |qsub (ecdfAt xs t) (ecdfAt ys t)| ≤ ks2samp xs ys := by
  by_cases hS : (xs ++ ys).filter (fun x => decide (x ≤ t)) = []
  · have hx : xs.filter (fun x => decide (x ≤ t)) = [] ∧
        ys.filter (fun x => decide (x ≤ t)) = [] := by
      rw [List.filter_append] at hS
      exact List.append_eq_nil.mp hS
    have h1 : ecdfAt xs t = 0 := by
      unfold ecdfAt
      rw [hx.1, qdiv_eq]
      simp
    have h2 : ecdfAt ys t = 0 := by
      unfold ecdfAt
      rw [hx.2, qdiv_eq]
      simp
    rw [h1, h2, qsub_eq, sub_self, abs_zero]
    exact base_le_foldr_max _ 0
  · have hmF := listMax_mem _ hS
    have hmem := List.mem_filter.mp hmF
    have hmt : listMax ((xs ++ ys).filter (fun x => decide (x ≤ t))) ≤ t :=
      of_decide_eq_true hmem.2
    have hcong : ∀ zs : List ℚ, (∀ z, z ∈ zs → z ∈ xs ++ ys) →
        ecdfAt zs t = ecdfAt zs (listMax ((xs ++ ys).filter (fun x => decide (x ≤ t)))) := by
      intro zs hsub
      apply ecdfAt_congr
      intro x hx
      constructor
      · intro hxt
        exact le_listMax _ _ (List.mem_filter.mpr ⟨hsub x hx, decide_eq_true hxt⟩)
      · intro hxm
        exact le_trans hxm hmt
    rw [hcong xs (fun z hz => List.mem_append_left _ hz),
      hcong ys (fun z hz => List.mem_append_right _ hz)]
    exact le_foldr_max _ 0 _ (List.mem_map.mpr ⟨_, hmem.1, rfl⟩)

/-- The two-sample KS statistic is attained at a merged sample point. -/
theorem ks2samp_attained (xs ys : List ℚ) (h : xs ++ ys ≠ []) :
    ∃ t ∈ xs ++ ys, ks2samp xs ys = |qsub (ecdfAt xs t) (ecdfAt ys t)| := by
  rcases foldr_max_mem_or ((xs ++ ys).map (fun u => |qsub (ecdfAt xs u) (ecdfAt ys u)|)) 0 with
    h0 | hmem
  · obtain ⟨t0, ht0⟩ : ∃ t0, t0 ∈ xs ++ ys := by
      cases hne : xs ++ ys with
      | nil => exact absurd hne h
      | cons a l => exact ⟨a, hne ▸ List.mem_cons_self a l⟩
    refine ⟨t0, ht0, ?_⟩
    have h1 : |qsub (ecdfAt xs t0) (ecdfAt ys t0)| ≤ 0 := by
      rw [show (0 : ℚ) = ks2samp xs ys from h0.symm]
      exact le_foldr_max _ 0 _ (List.mem_map.mpr ⟨t0, ht0, rfl⟩)
    have h2 : 0 ≤ |qsub (ecdfAt xs t0) (ecdfAt ys t0)| := abs_nonneg _
    rw [show ks2samp xs ys = 0 from h0]
    exact (le_antisymm h1 h2).symm
  · obtain ⟨t0, ht0, hf⟩ := List.mem_map.mp hmem
    exact ⟨t0, ht0, hf.symm⟩

/-- C6: a `KolmogorovSmirnovStatistic` in `auto` mode whose
missing-stripped reference holds fewer than 10,000 values stores the raw
stripped sample at `fit`, and every `calculate` on nonempty samples
returns exactly the classic two-sample KS statistic of the stored sample
and the stripped data: the maximum absolute difference of the two
empirical CDFs (a true supremum, attained on the merged sample). -/
theorem ks_auto_small_exact (ref data : Col) (s : KSInner)
    (hsize : (removeMissingData ref).length < 10000)
    (hfit : ksFit ref (ksInit "auto" 10000) = .ok s) :
    s.referenceData = some (removeMissingData ref) ∧
    s.calculationMethod = "auto" ∧
    s.referenceSize = (removeMissingData ref).length ∧
    (removeMissingData ref ≠ [] → removeMissingData data ≠ [] →
      ksCalculate s data =
        .ok (ks2samp (removeMissingData ref) (removeMissingData data), s) ∧
      (∀ t, |qsub (ecdfAt (removeMissingData ref) t) (ecdfAt (removeMissingData data) t)| ≤
        ks2samp (removeMissingData ref) (removeMissingData data)) ∧
      (∃ t ∈ removeMissingData ref ++ removeMissingData data,
        ks2samp (removeMissingData ref) (removeMissingData data) =
          |qsub (ecdfAt (removeMissingData ref) t) (ecdfAt (removeMissingData data) t)|)) := by
  unfold ksFit at hfit
  simp only [ksInit] at hfit
  rw [if_pos (Or.inl ⟨trivial, hsize⟩)] at hfit
  injection hfit with hs
  subst hs
  refine ⟨rfl, rfl, rfl, ?_⟩
  intro h1 h2
  have hl1 : ¬ (removeMissingData ref).length = 0 :=
    fun h => h1 (List.length_eq_zero.mp h)
  have hl2 : ¬ (removeMissingData data).length = 0 :=
    fun h => h2 (List.length_eq_zero.mp h)
  refine ⟨?_, fun t => ecdfAt_diff_le_ks2samp _ _ t,
    ks2samp_attained _ _ (fun hn => h1 (List.append_eq_nil.mp hn).1)⟩
  unfold ksCalculate
  have hbranch : ¬ ((("auto" : String) = "auto" ∧
      10000 ≤ (removeMissingData ref).length) ∨ ("auto" : String) = "estimated") := by
    rintro (⟨_, hge⟩ | hest)
    · exact absurd hge (Nat.not_le.mpr hsize)
    · exact absurd hest (by decide)
  rw [if_neg (by simp), if_neg hbranch]
  simp only []
  rw [if_neg (by rintro (h | h); exact hl1 h; exact hl2 h)]

/-- C6 (witness): reference 1, 2, 3 (3 < 10,000 values, `auto` mode) is
stored raw, and against data 2, 4 the calculate result is the classic KS
statistic. -/
theorem ks_auto_small_exact_witness :
    ∃ s : KSInner,
      ksFit [some 1, some 2, some 3] (ksInit "auto" 10000) = .ok s ∧
      s.referenceData = some (removeMissingData [some 1, some 2, some 3]) ∧
      ksCalculate s [some 2, some 4] =
        .ok (ks2samp (removeMissingData [some 1, some 2, some 3])
          (removeMissingData [some 2, some 4]), s) := by
  refine ⟨{ referenceData := some [1, 2, 3], referenceSize := 3, qts := none,
            refRelFreqs := none, fitted := true, calculationMethod := "auto",
            nBins := 10000 }, rfl, ?_, ?_⟩
  · have h := ks_auto_small_exact [some 1, some 2, some 3] [some 2, some 4] _
      (by decide) rfl
    exact h.1
  · have h := ks_auto_small_exact [some 1, some 2, some 3] [some 2, some 4] _
      (by decide) rfl
    exact (h.2.2.2 (by decide) (by decide)).1

/-! ## Claim C7. -/

/-- The head of a nonempty prefix rules the head of an append. -/
theorem headD_append_of_ne_nil {α : Type} (l1 l2 : List α) (d : α) (h : l1 ≠ []) :
    (l1 ++ l2).headD d = l1.headD d := by
  cases l1 with
  | nil => exact absurd rfl h
  | cons x xs => rfl

/-- The last element of an append with a nonempty suffix. -/
theorem getLastD_append_of_ne_nil {α : Type} (l1 l2 : List α) (d : α) (h : l2 ≠ []) :
    (l1 ++ l2).getLastD d = l2.getLastD d := by
  rw [List.getLastD_eq_getLast?, List.getLastD_eq_getLast?,
    List.getLast?_append_of_ne_nil _ h]

/-- The last element of a map over a range. -/
theorem getLastD_range_map {α : Type} (f : ℕ → α) (n : ℕ) (d : α) (hn : n ≠ 0) :
    ((List.range n).map f).getLastD d = f (n - 1) := by
  obtain ⟨m, rfl⟩ := Nat.exists_eq_succ_of_ne_zero hn
  rw [List.range_succ, List.map_append]
  rw [List.getLastD_eq_getLast?, List.getLast?_append_of_ne_nil _ (by simp)]
  rfl

/-- `arangeLen` is positive on a forward, positive-step range. -/
theorem arangeLen_pos (start stop step : ℚ) (hlt : start < stop) (hstep : 0 < step) :
    0 < arangeLen start stop step := by
  unfold arangeLen
  rw [if_neg (not_le.mpr hlt)]
  have hpos : (0 : ℤ) < Int.ceil (qdiv (qsub stop start) step) := by
    rw [qdiv_eq, qsub_eq]
    exact Int.ceil_pos.mpr (div_pos (by linarith) hstep)
  omega

/-- `arange` is empty exactly when the range is backward (positive step). -/
theorem arange_eq_nil_iff (start stop step : ℚ) (hstep : 0 < step) :
    arange start stop step = [] ↔ stop ≤ start := by
  unfold arange
  rw [List.map_eq_nil_iff, List.range_eq_nil]
  constructor
  · intro h
    by_contra hc
    have := arangeLen_pos start stop step (not_le.mp hc) hstep
    omega
  · intro h
    unfold arangeLen
    rw [if_pos h]

/-- The first element of a nonempty `arange` is its start. -/
theorem arange_headD (start stop step : ℚ) (hlt : start < stop) (hstep : 0 < step) :
    (arange start stop step).headD 0 = start := by
  unfold arange
  obtain ⟨m, hm⟩ := Nat.exists_eq_succ_of_ne_zero
    (Nat.pos_iff_ne_zero.mp (arangeLen_pos start stop step hlt hstep))
  rw [hm, List.range_succ_eq_map]
  show qadd start (qmul ((0 : ℕ) : ℚ) step) = start
  rw [qmul_eq, qadd_eq]
  push_cast
  ring

/-- The last element of a nonempty `arange`. -/
theorem arange_getLastD (start stop step : ℚ) (hlt : start < stop) (hstep : 0 < step) :
    (arange start stop step).getLastD 0 =
      qadd start (qmul ((arangeLen start stop step - 1 : ℕ) : ℚ) step) := by
  unfold arange
  exact getLastD_range_map _ _ _
    (Nat.pos_iff_ne_zero.mp (arangeLen_pos start stop step hlt hstep))

/-- The count of an `arange` covers the requested span: count times step
reaches from start past `stop - step`. -/
theorem arangeLen_mul_step_ge (start stop step : ℚ) (hlt : start < stop) (hstep : 0 < step) :
    stop - start ≤ (arangeLen start stop step : ℚ) * step := by
  unfold arangeLen
  rw [if_neg (not_le.mpr hlt)]
  have hx : (0 : ℚ) < (stop - start) / step := div_pos (by linarith) hstep
  have hceil : ((stop - start) / step : ℚ) ≤ (Int.ceil ((stop - start) / step) : ℚ) :=
    Int.le_ceil _
  have hnn : (0 : ℤ) ≤ Int.ceil ((stop - start) / step) := by
    have := Int.ceil_pos.mpr hx
    omega
  rw [qdiv_eq, qsub_eq]
  have hcast : (((Int.ceil ((stop - start) / step)).toNat : ℕ) : ℚ) =
      ((Int.ceil ((stop - start) / step) : ℤ) : ℚ) := by
    exact_mod_cast congrArg (fun z : ℤ => (z : ℚ)) (Int.toNat_of_nonneg hnn)
  rw [hcast]
  calc stop - start = ((stop - start) / step) * step := by field_simp
    _ ≤ (Int.ceil ((stop - start) / step) : ℚ) * step :=
        mul_le_mul_of_nonneg_right hceil (le_of_lt hstep)

/-- C7: in `WassersteinDistance._calculate` (estimated mode), whenever the
incoming minimum lies below the first stored edge (resp. the maximum above
the last), the corresponding extension array is nonempty; the extended
grid always starts at or below the incoming minimum and ends at or above
the incoming maximum; the new bins carry reference frequency exactly 0;
the zero-padded reference vector has exactly one entry per extended bin;
and the whole call returns a value (no shape mismatch, no error). -/
theorem wasserstein_extension_spec (s : WassInner) (edges freqs : List ℚ) (w : ℚ)
    (data : Col)
    (hfit : s.fitted = true) (hmeth : s.calculationMethod = "estimated")
    (he : s.binEdges = some edges) (hwf : s.binWidth = some w)
    (hf : s.refRelFreqs = some freqs)
    (hw : 0 < w) (hne : edges ≠ []) (hlen : edges.length = freqs.length + 1)
    (hd : removeMissingData data ≠ []) :
    (listMin (removeMissingData data) < edges.headD 0 →
      wassLeftEdges edges w (listMin (removeMissingData data)) ≠ []) ∧
    (edges.getLastD 0 < listMax (removeMissingData data) →
      wassRightEdges edges w (listMax (removeMissingData data)) ≠ []) ∧
    (wassUpdatedEdges edges w (listMin (removeMissingData data))
        (listMax (removeMissingData data))).headD 0 ≤ listMin (removeMissingData data) ∧
    listMax (removeMissingData data) ≤
      (wassUpdatedEdges edges w (listMin (removeMissingData data))
        (listMax (removeMissingData data))).getLastD 0 ∧
    wassUpdatedPdf edges freqs w (listMin (removeMissingData data))
        (listMax (removeMissingData data)) =
      List.replicate (wassLeftEdges edges w (listMin (removeMissingData data))).length 0 ++
        freqs ++
        List.replicate (wassRightEdges edges w (listMax (removeMissingData data))).length 0 ∧
    (wassUpdatedPdf edges freqs w (listMin (removeMissingData data))
        (listMax (removeMissingData data))).length + 1 =
      (wassUpdatedEdges edges w (listMin (removeMissingData data))
        (listMax (removeMissingData data))).length ∧
    (∃ v, wassCalculate s data = .ok (v, s)) := by
  have hminmax : ∀ a b : ℚ, a < b → qsub a w < qsub b w := by
    intro a b hab
    rw [qsub_eq, qsub_eq]
    linarith
  have haddlt : ∀ a b : ℚ, a < b → qadd a w < qadd b w := by
    intro a b hab
    rw [qadd_eq, qadd_eq]
    linarith
  refine ⟨?_, ?_, ?_, ?_, rfl, ?_, ?_⟩
  · intro hmin hnil
    have := (arange_eq_nil_iff _ _ _ hw).mp hnil
    rw [qsub_eq, qsub_eq] at this
    linarith
  · intro hmax hnil
    have := (arange_eq_nil_iff _ _ _ hw).mp hnil
    rw [qadd_eq, qadd_eq] at this
    linarith
  · by_cases hmin : listMin (removeMissingData data) < edges.headD 0
    · have hlne : wassLeftEdges edges w (listMin (removeMissingData data)) ≠ [] := by
        intro hnil
        have := (arange_eq_nil_iff _ _ _ hw).mp hnil
        rw [qsub_eq, qsub_eq] at this
        linarith
      unfold wassUpdatedEdges
      rw [List.append_assoc, headD_append_of_ne_nil _ _ _ hlne]
      unfold wassLeftEdges
      rw [arange_headD _ _ _ (hminmax _ _ hmin) hw, qsub_eq]
      linarith
    · push_neg at hmin
      have hlnil : wassLeftEdges edges w (listMin (removeMissingData data)) = [] := by
        apply (arange_eq_nil_iff _ _ _ hw).mpr
        rw [qsub_eq, qsub_eq]
        linarith
      unfold wassUpdatedEdges
      rw [hlnil, List.nil_append, headD_append_of_ne_nil _ _ _ hne]
      exact hmin
  · by_cases hmax : edges.getLastD 0 < listMax (removeMissingData data)
    · have hrne : wassRightEdges edges w (listMax (removeMissingData data)) ≠ [] := by
        intro hnil
        have := (arange_eq_nil_iff _ _ _ hw).mp hnil
        rw [qadd_eq, qadd_eq] at this
        linarith
      unfold wassUpdatedEdges
      rw [getLastD_append_of_ne_nil _ _ _ hrne]
      unfold wassRightEdges
      rw [arange_getLastD _ _ _ (haddlt _ _ hmax) hw]
      set n := arangeLen (qadd (edges.getLastD 0) w)
        (qadd (listMax (removeMissingData data)) w) w with hn
      have hn1 : 1 ≤ n := arangeLen_pos _ _ _ (haddlt _ _ hmax) hw
      have hgrow := arangeLen_mul_step_ge (qadd (edges.getLastD 0) w)
        (qadd (listMax (removeMissingData data)) w) w (haddlt _ _ hmax) hw
      rw [← hn] at hgrow
      rw [qadd_eq, qadd_eq] at hgrow
      rw [qadd_eq, qadd_eq, qmul_eq]
      rw [Nat.cast_sub hn1]
      push_cast
      nlinarith [hgrow]
    · push_neg at hmax
      have hrnil : wassRightEdges edges w (listMax (removeMissingData data)) = [] := by
        apply (arange_eq_nil_iff _ _ _ hw).mpr
        rw [qadd_eq, qadd_eq]
        linarith
      unfold wassUpdatedEdges
      rw [hrnil, List.append_nil, getLastD_append_of_ne_nil _ _ _ hne]
      exact hmax
  · unfold wassUpdatedPdf wassUpdatedEdges
    simp only [List.length_append, List.length_replicate]
    omega
  · unfold wassCalculate
    rw [hfit]
    rw [if_neg (by simp)]
    have hcond : (s.calculationMethod = "auto" ∧ 10000 ≤ s.referenceSize) ∨
        s.calculationMethod = "estimated" := Or.inr hmeth
    rw [if_pos hcond, he, hwf, hf]
    simp only []
    rw [if_neg (fun h => hd (List.length_eq_zero.mp h))]
    exact ⟨_, rfl⟩

/-- C7 (witness): an estimated-mode state with edges 0, 1, width 1 and one
reference bin, fed data spanning -3/2 to 5/2: the left extension is
nonempty, the extended grid covers the data range, and calculate returns a
value. -/
theorem wasserstein_extension_spec_witness :
    wassLeftEdges [0, 1] 1
      (listMin (removeMissingData [some (mkRat (-3) 2), some (mkRat 5 2)])) ≠ [] ∧
    (wassUpdatedEdges [0, 1] 1
        (listMin (removeMissingData [some (mkRat (-3) 2), some (mkRat 5 2)]))
        (listMax (removeMissingData [some (mkRat (-3) 2), some (mkRat 5 2)]))).headD 0 ≤
      listMin (removeMissingData [some (mkRat (-3) 2), some (mkRat 5 2)]) ∧
    listMax (removeMissingData [some (mkRat (-3) 2), some (mkRat 5 2)]) ≤
      (wassUpdatedEdges [0, 1] 1
        (listMin (removeMissingData [some (mkRat (-3) 2), some (mkRat 5 2)]))
        (listMax (removeMissingData [some (mkRat (-3) 2), some (mkRat 5 2)]))).getLastD 0 ∧
    (∃ v, wassCalculate
        ({ referenceData := none, referenceSize := 10000, binWidth := some 1,
           binEdges := some [0, 1], refRelFreqs := some [1], fitted := true,
           calculationMethod := "estimated", nBins := 1 } : WassInner)
        [some (mkRat (-3) 2), some (mkRat 5 2)] =
      .ok (v, { referenceData := none, referenceSize := 10000, binWidth := some 1,
                binEdges := some [0, 1], refRelFreqs := some [1], fitted := true,
                calculationMethod := "estimated", nBins := 1 })) := by
  have h := wasserstein_extension_spec
    ({ referenceData := none, referenceSize := 10000, binWidth := some 1,
       binEdges := some [0, 1], refRelFreqs := some [1], fitted := true,
       calculationMethod := "estimated", nBins := 1 } : WassInner)
    [0, 1] [1] 1 [some (mkRat (-3) 2), some (mkRat 5 2)]
    rfl rfl rfl rfl rfl (by decide) (by decide) (by decide) (by decide)
  exact ⟨h.1 (by decide), h.2.2.1, h.2.2.2.1, h.2.2.2.2.2.2⟩

/-! ## Claim C10. -/

/-- C10 (amended): no concrete method guards `calculate` against an empty
data column -- none raises an invalid-argument or not-fitted error there --
but their behaviours differ: Jensen-Shannon and Hellinger proceed through
the division by the zero data length and return a (junk) vector pair;
L-infinity computes no per-label data ratio at all (the data label list is
empty) and returns the maximum reference probability; Kolmogorov-Smirnov
in estimated mode hits the scalar Python division by `len(data) = 0`
(`ZeroDivisionError`); Wasserstein in estimated mode fails in
`np.min(data)` (`ValueError`) before any division. -/
theorem calculate_empty_column_spec :
    (∀ st : BinnedState, ∃ out, jensenShannonCalculate (some st) [] = .ok out) ∧
    (∀ st : BinnedState, ∃ out, hellingerCalculate (some st) [] = .ok out) ∧
    (∀ (s : LInfInner) (rp : List (ℚ × ℚ)), s.referenceProba = some rp → rp ≠ [] →
      labelRatios (removeMissingData []) = [] ∧
      ∃ v, lInfCalculate s [] = .ok (v, s)) ∧
    (∀ (s : KSInner) (qts rf : List ℚ),
      s.fitted = true →
      ((s.calculationMethod = "auto" ∧ 10000 ≤ s.referenceSize) ∨
        s.calculationMethod = "estimated") →
      s.qts = some qts → s.refRelFreqs = some rf →
      ksCalculate s [] = .error .zeroDivision) ∧
    (∀ (s : WassInner) (edges : List ℚ) (w : ℚ) (freqs : List ℚ),
      s.fitted = true →
      ((s.calculationMethod = "auto" ∧ 10000 ≤ s.referenceSize) ∨
        s.calculationMethod = "estimated") →
      s.binEdges = some edges → s.binWidth = some w → s.refRelFreqs = some freqs →
      wassCalculate s [] = .error .valueError) := by
  refine ⟨fun st => ⟨_, rfl⟩, fun st => ⟨_, rfl⟩, ?_, ?_, ?_⟩
  · intro s rp hs hne
    refine ⟨rfl, ?_⟩
    unfold lInfCalculate
    rw [hs]
    cases rp with
    | nil => exact absurd rfl hne
    | cons p rest => exact ⟨_, rfl⟩
  · intro s qts rf hfit hcond hq hr
    unfold ksCalculate
    rw [hfit, if_neg (by simp), if_pos hcond, hq, hr]
    rfl
  · intro s edges w freqs hfit hcond he hw hf
    unfold wassCalculate
    rw [hfit, if_neg (by simp), if_pos hcond, he, hw, hf]
    rfl

/-- C10 (counterexample): a fitted estimated-mode `WassersteinDistance`
raises (the `ValueError` of `np.min` on an empty array) on an empty
column -- it never reaches a division by the data length -- while a fitted
`LInfinityDistance` returns the value 1/2 with no division by the zero
data length; the claim that every fitted method divides by the zero
length is false. -/
theorem calculate_empty_column_counterexample :
    wassCalculate ({ referenceData := none, referenceSize := 10000, binWidth := some 1,
                     binEdges := some [0, 1], refRelFreqs := some [1], fitted := true,
                     calculationMethod := "auto", nBins := 1 } : WassInner) [] =
      .error .valueError ∧
    lInfCalculate (lInfFit [some 1, some 1, some 2, some 2] lInfInit) [] =
      .ok (mkRat 1 2, lInfFit [some 1, some 1, some 2, some 2] lInfInit) :=
  ⟨rfl, rfl⟩

/-- C10 (witness): each branch of `calculate_empty_column_spec` at a
concrete fitted state. -/
theorem calculate_empty_column_spec_witness :
    (∃ out, jensenShannonCalculate (some (binnedFit 1 true [some 1])) [] = .ok out) ∧
    (labelRatios (removeMissingData []) = [] ∧
      ∃ v, lInfCalculate (lInfFit [some 1, some 1, some 2, some 2] lInfInit) [] =
        .ok (v, lInfFit [some 1, some 1, some 2, some 2] lInfInit)) ∧
    ksCalculate ({ referenceData := none, referenceSize := 3, qts := some [0, 1],
                   refRelFreqs := some [1], fitted := true,
                   calculationMethod := "estimated",
                   nBins := 1 } : KSInner) [] = .error .zeroDivision ∧
    wassCalculate ({ referenceData := none, referenceSize := 3, binWidth := some 1,
                     binEdges := some [0, 1], refRelFreqs := some [1], fitted := true,
                     calculationMethod := "estimated", nBins := 1 } : WassInner) [] =
      .error .valueError := by
  refine ⟨calculate_empty_column_spec.1 (binnedFit 1 true [some 1]), ?_, ?_, ?_⟩
  · exact calculate_empty_column_spec.2.2.1 (lInfFit [some 1, some 1, some 2, some 2] lInfInit)
      (labelRatios (removeMissingData [some 1, some 1, some 2, some 2])) rfl (by decide)
  · exact calculate_empty_column_spec.2.2.2.1 _ [0, 1] [1] rfl (Or.inr rfl) rfl rfl
  · exact calculate_empty_column_spec.2.2.2.2 _ [0, 1] 1 [1] rfl (Or.inr rfl) rfl rfl rfl
